import Mathlib

/-!
Verification of the topography-mask / section-extrapolation pipeline of
`oceans/ctd/ctd.py` (functions `extrap_sec` and `gen_topomask`).

Conventions of the embedding:

* Real-valued quantities are modelled with `ℚ` so that every definition is
  executable and every concrete run can be checked by `decide`.
* A cell of the 2-D measurement grid is `Option ℚ`; `none` models numpy's
  `NaN` ("missing"), and arithmetic on cells propagates `none` the way IEEE
  arithmetic propagates `NaN`.
* A grid is a function `Nat → Nat → Option ℚ` indexed by (row, column),
  together with explicit extents `m` (rows) and `n` (columns) passed
  separately; every write performed by the source is guarded by the extents,
  so cells outside the extent are never touched.
* A Python exception (numpy `IndexError` on an out-of-range index) is
  modelled by returning `none : Option Grid` from the whole computation.
* The external libraries `gsw` and `scipy` are not part of this repository;
  following the specification they are modelled as parameters or as
  definitions marked "Modelled from the spec".
-/

namespace Oceans

/-- A grid cell: `none` models numpy NaN (a missing measurement). -/
abbrev Cell : Type := Option ℚ

/-- A 2-D measurement grid, indexed by (row = vertical level, column = station). -/
abbrev Grid : Type := Nat → Nat → Cell

/-! ### DistanceModel: cumulative distance along the transect

The source computes `np.r_[0, np.cumsum(gsw.distance(lon, lat)[0] / 1e3)]`
(in `extrap_sec`, line 196) and the identical expression in `gen_topomask`
(line 252).  `gsw.distance` is an external library function returning the
geodesic distance in meters between each pair of consecutive stations; it is
modelled as a parameter `segdist`. -/

/-- Consecutive pairs of a list: the pairs `np.diff` ranges over.
`adjPairs [a, b, c] = [(a, b), (b, c)]`. -/
def adjPairs {α : Type} : List α → List (α × α)
  | a :: b :: t => (a, b) :: adjPairs (b :: t)
  | _ => []

/-- Running sums starting from `acc`: the embedding of `np.cumsum`. -/
def cumsumFrom (acc : ℚ) : List ℚ → List ℚ
  | [] => []
  | a :: t => (acc + a) :: cumsumFrom (acc + a) t

/-- `np.r_[0, np.cumsum(gsw.distance(lon, lat)[0] / 1e3)]`: cumulative
distance in kilometers along the transect, with the external `gsw.distance`
supplied as `segdist` (a function of the two consecutive (lon, lat) points,
returning meters). -/
def cumulative_distance (segdist : ℚ × ℚ → ℚ × ℚ → ℚ) (lon lat : List ℚ) :
    List ℚ :=
  0 :: cumsumFrom 0 ((adjPairs (lon.zip lat)).map (fun s => segdist s.1 s.2 / 1000))

lemma adjPairs_length {α : Type} : ∀ l : List α, (adjPairs l).length = l.length - 1
  | [] => rfl
  | [_] => rfl
  | a :: b :: t => by
      have h := adjPairs_length (b :: t)
      simp [adjPairs] at h ⊢
      omega

lemma cumsumFrom_length : ∀ (acc : ℚ) (l : List ℚ), (cumsumFrom acc l).length = l.length
  | _, [] => rfl
  | acc, a :: t => by simp [cumsumFrom, cumsumFrom_length (acc + a) t]

lemma cumsumFrom_chain (acc : ℚ) (l : List ℚ) (h : ∀ x ∈ l, 0 ≤ x) :
    List.Chain' (· ≤ ·) (acc :: cumsumFrom acc l) := by
  induction l generalizing acc with
  | nil => simp [cumsumFrom]
  | cons a t ih =>
      have ha : 0 ≤ a := h a (by simp)
      have ht : ∀ x ∈ t, 0 ≤ x := fun x hx => h x (by simp [hx])
      simpa [cumsumFrom] using And.intro (by linarith) (ih (acc + a) ht)

lemma cumulative_distance_length (segdist : ℚ × ℚ → ℚ × ℚ → ℚ) (lon lat : List ℚ)
    (hlen : lon.length = lat.length) (hN : 1 ≤ lon.length) :
    (cumulative_distance segdist lon lat).length = lon.length := by
  simp [cumulative_distance, cumsumFrom_length, adjPairs_length, hlen.symm]
  omega

/-- C6: for equal-length coordinate sequences of length `N ≥ 1` (the domain of
the DistanceModel contract) and any nonnegative segment-distance function, the
cumulative distance vector has length `N`, starts with exactly `0`, and is
monotonically non-decreasing. -/
theorem cumulative_distance_monotone (segdist : ℚ × ℚ → ℚ × ℚ → ℚ)
    (lon lat : List ℚ) (hpos : ∀ p q : ℚ × ℚ, 0 ≤ segdist p q)
    (hlen : lon.length = lat.length) (hN : 1 ≤ lon.length) :
    (cumulative_distance segdist lon lat).length = lon.length ∧
      (cumulative_distance segdist lon lat).head? = some 0 ∧
      List.Chain' (· ≤ ·) (cumulative_distance segdist lon lat) := by
  refine ⟨cumulative_distance_length segdist lon lat hlen hN, rfl, ?_⟩
  exact cumsumFrom_chain 0 _ (by
    intro x hx
    simp only [List.mem_map] at hx
    obtain ⟨s, _, rfl⟩ := hx
    have := hpos s.1 s.2
    positivity)

theorem cumulative_distance_monotone_witness :
    (cumulative_distance (fun _ _ => 1000) [0, 3] [0, 4]).length = 2 ∧
      (cumulative_distance (fun _ _ => 1000) [0, 3] [0, 4]).head? = some 0 ∧
      List.Chain' (· ≤ ·) (cumulative_distance (fun _ _ => 1000) [0, 3] [0, 4]) :=
  cumulative_distance_monotone (fun _ _ => 1000) [0, 3] [0, 4]
    (fun _ _ => by norm_num) (by decide) (by decide)

/-- C9: a single-station transect yields the one-element distance vector `[0]`,
for every segment-distance model (there are no consecutive pairs to measure). -/
theorem cumulative_distance_single (segdist : ℚ × ℚ → ℚ × ℚ → ℚ) (lon0 lat0 : ℚ) :
    cumulative_distance segdist [lon0] [lat0] = [0] := rfl

/-! ### SectionExtrapolator: `extrap_sec` (ctd.py lines 194-205)

Source:
```
lon, lat = map(np.asanyarray, (lon, lat))
dist = np.r_[0, np.cumsum(gsw.distance(lon, lat)[0] / 1e3)]
fnan = np.isnan(data[:, -2])
data[fnan, -2] = data[fnan, -1]
for col in range(lon.size - 2, 0, -1):
    if np.isnan(data[-1, col]):
        a = np.where(np.isnan(data[:, col]))
        data[a, col] = data[a, col + 1] - fd * ((((data[a, col + 2]) -
        data[a, col + 1]) / (dist[col + 2] - dist[col + 1])) *
        (dist[col + 1] - dist[col]))
return data
```
All writes go into the array `data` itself (no copy is taken) and the same
array object is returned. -/

/-- The value assigned to a missing cell:
`data[a, col+1] - fd * (((data[a, col+2] - data[a, col+1]) / (dist[col+2] -
dist[col+1])) * (dist[col+1] - dist[col]))`, with `none` (NaN) propagating
through the float arithmetic.  Rational division is total (`q / 0 = 0`), so
the source's IEEE behavior at coincident stations (a zero distance step,
yielding an infinity) is outside this model. -/
def fillVal (vR vRR : Cell) (d0 d1 d2 fd : ℚ) : Cell :=
  match vR, vRR with
  | some x, some y => some (x - fd * (((y - x) / (d2 - d1)) * (d1 - d0)))
  | _, _ => none

/-- The boundary seed `data[fnan, -2] = data[fnan, -1]`: every missing cell of
column `n-2` receives the value of column `n-1` at the same row. -/
def seedG (m n : Nat) (g : Grid) : Grid := fun r c =>
  if c = n - 2 ∧ r < m ∧ g r (n - 2) = none then g r (n - 1) else g r c

/-- The assignment `data[a, col] = ...` with `a = np.where(np.isnan(data[:, col]))`:
every missing cell of column `col` (within the row extent) receives the fill
value computed from the two columns to the right. -/
def writeCol (m : Nat) (dist : List ℚ) (fd : ℚ) (g : Grid) (col : Nat) : Grid :=
  fun r c =>
    if c = col ∧ r < m ∧ g r col = none then
      fillVal (g r (col + 1)) (g r (col + 2))
        (dist.getD col 0) (dist.getD (col + 1) 0) (dist.getD (col + 2) 0) fd
    else g r c

/-- One iteration of the `for col in range(lon.size - 2, 0, -1)` loop.
Reading `data[-1, col]` requires `1 ≤ m` and `col < n`; when the branch fires,
reading `data[a, col + 2]` and `dist[col + 2]` requires `col + 2 < n` and
`col + 2 < dist.length` — otherwise numpy raises `IndexError`, modelled as
`none`. -/
def scanStep (m n : Nat) (dist : List ℚ) (fd : ℚ) (g : Grid) (col : Nat) :
    Option Grid :=
  if m = 0 ∨ n ≤ col then none
  else if g (m - 1) col = none then
    if col + 2 < n ∧ col + 2 < dist.length then some (writeCol m dist fd g col)
    else none
  else some g

/-- The descending column list `range(k, 0, -1) = [k, k-1, ..., 1]`. -/
def colsDesc : Nat → List Nat
  | 0 => []
  | k + 1 => (k + 1) :: colsDesc k

/-- The extrapolation loop over columns `[k, ..., 1]`; a raised exception
aborts the whole call. -/
def scanLoop (m n : Nat) (dist : List ℚ) (fd : ℚ) : Nat → Grid → Option Grid
  | 0, g => some g
  | k + 1, g =>
      match scanStep m n dist fd g (k + 1) with
      | none => none
      | some g1 => scanLoop m n dist fd k g1

/-- `extrap_sec(data, lon, lat, fd)` for a grid of extent `m × n`: computes the
distance vector, seeds column `n-2` from column `n-1` (an `IndexError` if
`n < 2`), then scans columns `lon.size - 2` down to `1`.  `none` models a
raised exception. -/
def extrap_sec (segdist : ℚ × ℚ → ℚ × ℚ → ℚ) (m n : Nat) (data : Grid)
    (lon lat : List ℚ) (fd : ℚ) : Option Grid :=
  if n < 2 then none
  else
    scanLoop m n (cumulative_distance segdist lon lat) fd (lon.length - 2)
      (seedG m n data)

/-- The contents of the array object the caller passed in, after a successful
call: the source writes in place into `data` and returns the same array
without copying, so on success the caller's array holds exactly the returned
grid. -/
def extrap_sec_callerView (segdist : ℚ × ℚ → ℚ × ℚ → ℚ) (m n : Nat)
    (data : Grid) (lon lat : List ℚ) (fd : ℚ) : Option Grid :=
  extrap_sec segdist m n data lon lat fd

/-! ### The extrapolation algorithm as worded by the specification

Modelled from the spec (§4.3): "For the second-to-last column, any missing
cell is first filled by copying the value from the last column (boundary
seed).  Then, scanning columns from the second-to-last down to the first
(excluding column 0), for each column where the bottom-most row is missing:
locate all missing rows in that column; for each missing row, set its value to
the value one column to the right, minus `fd` times the lateral derivative
computed from the two columns to the right, scaled by the local distance step
to the current column."  Missing values are "represented as not-a-number", so
the value arithmetic propagates missingness. -/

/-- Modelled from the spec: subtraction of possibly-missing values. -/
def cSub : Cell → Cell → Cell
  | some a, some b => some (a - b)
  | _, _ => none

/-- Modelled from the spec: scaling a possibly-missing value by a number. -/
def cScale (q : ℚ) : Cell → Cell
  | some a => some (q * a)
  | none => none

/-- Modelled from the spec: dividing a possibly-missing value by a number. -/
def cDivQ : Cell → ℚ → Cell
  | some a, q => some (a / q)
  | none, _ => none

/-- Modelled from the spec: the value written into a missing row — "the value
one column to the right, minus `fd` times the lateral derivative computed from
the two columns to the right, scaled by the local distance step to the current
column". -/
def specFillValue (vR vRR : Cell) (d0 d1 d2 fd : ℚ) : Cell :=
  let lateralDerivative := cDivQ (cSub vRR vR) (d2 - d1)
  cSub vR (cScale fd (cScale (d1 - d0) lateralDerivative))

/-- Modelled from the spec: the boundary seed — every missing cell of the
second-to-last column is filled by copying the value from the last column. -/
def specSeedColumn (m n : Nat) (g : Grid) : Grid := fun r c =>
  if c = n - 2 ∧ r < m ∧ g r (n - 2) = none then g r (n - 1) else g r c

/-- Modelled from the spec: process one column — if its bottom-most row is
missing, set every missing row of the column to the spec's fill value. -/
def specProcessColumn (m : Nat) (dist : List ℚ) (fd : ℚ) (g : Grid)
    (col : Nat) : Grid :=
  if g (m - 1) col = none then
    fun r c =>
      if c = col ∧ r < m ∧ g r col = none then
        specFillValue (g r (col + 1)) (g r (col + 2))
          (dist.getD col 0) (dist.getD (col + 1) 0) (dist.getD (col + 2) 0) fd
      else g r c
  else g

/-- Modelled from the spec: scan columns from `k` down to `1` (column 0
excluded), processing each in turn. -/
def specScan (m : Nat) (dist : List ℚ) (fd : ℚ) : Nat → Grid → Grid
  | 0, g => g
  | k + 1, g => specScan m dist fd k (specProcessColumn m dist fd g (k + 1))

/-- Modelled from the spec: the whole extrapolation — seed the second-to-last
column from the last, then scan from the second-to-last column down to
column 1. -/
def extrapolate_section_spec (m n : Nat) (data : Grid) (dist : List ℚ)
    (fd : ℚ) : Grid :=
  specScan m dist fd (n - 2) (specSeedColumn m n data)

lemma specFillValue_eq_fillVal (vR vRR : Cell) (d0 d1 d2 fd : ℚ) :
    specFillValue vR vRR d0 d1 d2 fd = fillVal vR vRR d0 d1 d2 fd := by
  cases vR <;> cases vRR <;>
    simp only [specFillValue, fillVal, cSub, cScale, cDivQ, Option.some.injEq]
  ring

lemma seedG_eq_specSeedColumn (m n : Nat) (g : Grid) :
    seedG m n g = specSeedColumn m n g := rfl

lemma specProcessColumn_eq (m : Nat) (dist : List ℚ) (fd : ℚ) (g : Grid)
    (col : Nat) :
    specProcessColumn m dist fd g col =
      if g (m - 1) col = none then writeCol m dist fd g col else g := by
  unfold specProcessColumn
  by_cases hb : g (m - 1) col = none
  · rw [if_pos hb, if_pos hb]
    funext r c
    simp only [writeCol, specFillValue_eq_fillVal]
  · rw [if_neg hb, if_neg hb]

/-! ### Basic facts about single writes -/

lemma writeCol_other {m : Nat} {dist : List ℚ} {fd : ℚ} {g : Grid}
    {col r c : Nat} (h : c ≠ col ∨ m ≤ r ∨ g r col ≠ none) :
    writeCol m dist fd g col r c = g r c := by
  unfold writeCol
  rcases h with h | h | h
  · simp [h]
  · have : ¬ (c = col ∧ r < m ∧ g r col = none) := by
      rintro ⟨_, hr, _⟩; omega
    simp [this]
  · have : ¬ (c = col ∧ r < m ∧ g r col = none) := by
      rintro ⟨hc, _, hn⟩; subst hc; exact h hn
    simp [this]

lemma writeCol_preserves {m : Nat} {dist : List ℚ} {fd : ℚ} {g : Grid}
    {col r c : Nat} (h : g r c ≠ none) :
    writeCol m dist fd g col r c = g r c := by
  unfold writeCol
  have : ¬ (c = col ∧ r < m ∧ g r col = none) := by
    rintro ⟨hc, _, hn⟩; subst hc; exact h hn
  simp [this]

/-- Inversion of one loop iteration: a successful step either skipped the
column (its bottom-most cell was not missing) or performed the guarded
column write. -/
lemma scanStep_some {m n : Nat} {dist : List ℚ} {fd : ℚ} {g : Grid}
    {col : Nat} {g1 : Grid} (h : scanStep m n dist fd g col = some g1) :
    1 ≤ m ∧ col < n ∧
      ((g (m - 1) col ≠ none ∧ g1 = g) ∨
        (g (m - 1) col = none ∧ col + 2 < n ∧ col + 2 < dist.length ∧
          g1 = writeCol m dist fd g col)) := by
  unfold scanStep at h
  split_ifs at h with h1 h2 h3
  · refine ⟨by omega, by omega, Or.inr ⟨h2, h3.1, h3.2, ?_⟩⟩
    exact (Option.some.inj h).symm
  · exact ⟨by omega, by omega, Or.inl ⟨h2, (Option.some.inj h).symm⟩⟩

lemma scanStep_skip {m n : Nat} {dist : List ℚ} {fd : ℚ} {g : Grid}
    {col : Nat} (hm : 1 ≤ m) (hcol : col < n) (hb : g (m - 1) col ≠ none) :
    scanStep m n dist fd g col = some g := by
  have hc2 : ¬ (m = 0 ∨ n ≤ col) := by
    push_neg
    exact ⟨by omega, hcol⟩
  unfold scanStep
  rw [if_neg hc2, if_neg hb]

lemma scanStep_fire {m n : Nat} {dist : List ℚ} {fd : ℚ} {g : Grid}
    {col : Nat} (hm : 1 ≤ m) (hcol : col < n) (hb : g (m - 1) col = none)
    (h2 : col + 2 < n) (h3 : col + 2 < dist.length) :
    scanStep m n dist fd g col = some (writeCol m dist fd g col) := by
  have hc2 : ¬ (m = 0 ∨ n ≤ col) := by
    push_neg
    exact ⟨by omega, hcol⟩
  unfold scanStep
  rw [if_neg hc2, if_pos hb, if_pos ⟨h2, h3⟩]

/-! ### The loop writes only its own columns -/

lemma scanLoop_untouched {m n : Nat} {dist : List ℚ} {fd : ℚ} :
    ∀ {k : Nat} {g out : Grid}, scanLoop m n dist fd k g = some out →
      ∀ r c, (c = 0 ∨ k < c) → out r c = g r c := by
  intro k
  induction k with
  | zero => intro g out h r c _; cases h; rfl
  | succ k ih =>
      intro g out h r c hc
      rw [scanLoop] at h
      cases hstep : scanStep m n dist fd g (k + 1) with
      | none => rw [hstep] at h; cases h
      | some g1 =>
          rw [hstep] at h
          have h1 : out r c = g1 r c := ih h r c (by omega)
          obtain ⟨-, -, hcase⟩ := scanStep_some hstep
          rcases hcase with ⟨-, rfl⟩ | ⟨-, -, -, rfl⟩
          · exact h1
          · rw [h1, writeCol_other (Or.inl (by omega))]

lemma specProcessColumn_other {m : Nat} {dist : List ℚ} {fd : ℚ} {g : Grid}
    {col r c : Nat} (h : c ≠ col) :
    specProcessColumn m dist fd g col r c = g r c := by
  rw [specProcessColumn_eq]
  split
  · exact writeCol_other (Or.inl h)
  · rfl

lemma specScan_untouched {m : Nat} {dist : List ℚ} {fd : ℚ} :
    ∀ {k : Nat} {g : Grid} (r c : Nat), (c = 0 ∨ k < c) →
      specScan m dist fd k g r c = g r c := by
  intro k
  induction k with
  | zero => intro g r c _; rfl
  | succ k ih =>
      intro g r c hc
      rw [specScan, ih r c (by omega), specProcessColumn_other (by omega)]

/-! ### Soundness: a successful run computes exactly the spec's scan -/

lemma scanLoop_sound {m n : Nat} {dist : List ℚ} {fd : ℚ} :
    ∀ {k : Nat} {g out : Grid}, scanLoop m n dist fd k g = some out →
      out = specScan m dist fd k g := by
  intro k
  induction k with
  | zero => intro g out h; cases h; rfl
  | succ k ih =>
      intro g out h
      rw [scanLoop] at h
      cases hstep : scanStep m n dist fd g (k + 1) with
      | none => rw [hstep] at h; cases h
      | some g1 =>
          rw [hstep] at h
          have hP : specProcessColumn m dist fd g (k + 1) = g1 := by
            rw [specProcessColumn_eq]
            obtain ⟨-, -, hcase⟩ := scanStep_some hstep
            rcases hcase with ⟨hb, rfl⟩ | ⟨hb, -, -, rfl⟩
            · rw [if_neg hb]
            · rw [if_pos hb]
          rw [specScan, hP]
          exact ih h

/-- Completeness: when every scanned column keeps its two right neighbours in
range (`k + 2 < n`) and the distance vector covers the columns, no iteration
can raise, and the run computes the spec's scan. -/
lemma scanLoop_complete {m n : Nat} {dist : List ℚ} {fd : ℚ} (hm : 1 ≤ m)
    (hd : n ≤ dist.length) :
    ∀ (k : Nat) (g : Grid), k + 2 < n →
      scanLoop m n dist fd k g = some (specScan m dist fd k g) := by
  intro k
  induction k with
  | zero => intro g _; rfl
  | succ k ih =>
      intro g hk
      rw [scanLoop, specScan]
      by_cases hb : g (m - 1) (k + 1) = none
      · rw [scanStep_fire hm (by omega) hb (by omega) (by omega)]
        rw [show specProcessColumn m dist fd g (k + 1) = writeCol m dist fd g (k + 1) by
          rw [specProcessColumn_eq, if_pos hb]]
        exact ih _ (by omega)
      · rw [scanStep_skip hm (by omega) hb]
        rw [show specProcessColumn m dist fd g (k + 1) = g by
          rw [specProcessColumn_eq, if_neg hb]]
        exact ih _ (by omega)

/-! ### Cells that the scan can never change -/

lemma specScan_preserves {m : Nat} {dist : List ℚ} {fd : ℚ} :
    ∀ {k : Nat} {g : Grid} (r c : Nat), g r c ≠ none →
      specScan m dist fd k g r c = g r c := by
  intro k
  induction k with
  | zero => intro g r c _; rfl
  | succ k ih =>
      intro g r c hc
      have hP : specProcessColumn m dist fd g (k + 1) r c = g r c := by
        rw [specProcessColumn_eq]
        split
        · exact writeCol_preserves hc
        · rfl
      rw [specScan, ih r c (by rw [hP]; exact hc), hP]

lemma specScan_rows {m : Nat} {dist : List ℚ} {fd : ℚ} :
    ∀ {k : Nat} {g : Grid} (r c : Nat), m ≤ r →
      specScan m dist fd k g r c = g r c := by
  intro k
  induction k with
  | zero => intro g r c _; rfl
  | succ k ih =>
      intro g r c hr
      have hP : specProcessColumn m dist fd g (k + 1) r c = g r c := by
        rw [specProcessColumn_eq]
        split
        · exact writeCol_other (Or.inr (Or.inl hr))
        · rfl
      rw [specScan, ih r c hr, hP]

/-- A column whose bottom-most cell is not missing before the scan is never
written by the scan. -/
lemma specScan_skipcol {m : Nat} {dist : List ℚ} {fd : ℚ} :
    ∀ {k : Nat} {g : Grid} {c : Nat}, 1 ≤ c → c ≤ k → g (m - 1) c ≠ none →
      ∀ r, specScan m dist fd k g r c = g r c := by
  intro k
  induction k with
  | zero => intro g c hc hk _ _; omega
  | succ k ih =>
      intro g c hc hk hb r
      rw [specScan]
      rcases Nat.lt_or_ge c (k + 1) with hlt | hge
      · have hP : ∀ r, specProcessColumn m dist fd g (k + 1) r c = g r c :=
          fun r => specProcessColumn_other (by omega)
        rw [ih hc (by omega) (by rw [hP]; exact hb) r, hP]
      · have hck : c = k + 1 := by omega
        subst hck
        have hP : specProcessColumn m dist fd g (k + 1) = g := by
          rw [specProcessColumn_eq, if_neg hb]
        rw [hP, specScan_untouched r (k + 1) (by omega)]

/-- Per-cell characterization of the scan: inside the scanned region a cell is
either left alone, or it was missing and receives the fill value computed from
the final values of the two columns to its right. -/
lemma specScan_cell {m : Nat} {dist : List ℚ} {fd : ℚ} :
    ∀ {k : Nat} {g : Grid} {r c : Nat}, 1 ≤ c → c ≤ k → r < m →
      specScan m dist fd k g r c = g r c ∨
        (g r c = none ∧
          specScan m dist fd k g r c =
            fillVal (specScan m dist fd k g r (c + 1))
              (specScan m dist fd k g r (c + 2))
              (dist.getD c 0) (dist.getD (c + 1) 0) (dist.getD (c + 2) 0) fd) := by
  intro k
  induction k with
  | zero => intro g r c hc hk _; omega
  | succ k ih =>
      intro g r c hc hk hr
      rcases Nat.lt_or_ge c (k + 1) with hlt | hge
      · rcases ih (g := specProcessColumn m dist fd g (k + 1)) hc (by omega) hr
          with h | ⟨hnone, h⟩
        · rw [specScan, h, specProcessColumn_other (by omega)]
          exact Or.inl rfl
        · rw [specProcessColumn_other (by omega : c ≠ k + 1)] at hnone
          refine Or.inr ⟨hnone, ?_⟩
          rw [specScan]
          exact h
      · have hck : c = k + 1 := by omega
        subst hck
        have huntouched : ∀ c2, k + 1 ≤ c2 →
            specScan m dist fd (k + 1) g r c2 =
              specProcessColumn m dist fd g (k + 1) r c2 := by
          intro c2 hc2
          rw [specScan, specScan_untouched r c2 (by omega)]
        have h1 := huntouched (k + 1) (by omega)
        have h2 := huntouched (k + 2) (by omega)
        have h3 := huntouched (k + 3) (by omega)
        rw [specProcessColumn_other (by omega : k + 2 ≠ k + 1)] at h2
        rw [specProcessColumn_other (by omega : k + 3 ≠ k + 1)] at h3
        rw [h1, specProcessColumn_eq]
        by_cases hb : g (m - 1) (k + 1) = none
        · rw [if_pos hb]
          by_cases hcell : g r (k + 1) = none
          · refine Or.inr ⟨hcell, ?_⟩
            rw [h2, h3]
            unfold writeCol
            rw [if_pos ⟨rfl, hr, hcell⟩]
          · exact Or.inl (writeCol_other (Or.inr (Or.inr hcell)))
        · rw [if_neg hb]
          exact Or.inl rfl

/-- A successful run's output is a fixpoint of the loop: running the scan
again on the output succeeds and changes nothing. -/
lemma scanLoop_fixpoint {m n : Nat} {dist : List ℚ} {fd : ℚ} :
    ∀ {k : Nat} {g out : Grid}, scanLoop m n dist fd k g = some out →
      scanLoop m n dist fd k out = some out := by
  intro k
  induction k with
  | zero => intro g out h; cases h; rfl
  | succ k ih =>
      intro g out h
      rw [scanLoop] at h
      cases hstep : scanStep m n dist fd g (k + 1) with
      | none => rw [hstep] at h; cases h
      | some g1 =>
          rw [hstep] at h
          have hunt : ∀ r c, c = 0 ∨ k < c → out r c = g1 r c :=
            scanLoop_untouched h
          obtain ⟨hm, hcol, hcase⟩ := scanStep_some hstep
          have hfix : scanStep m n dist fd out (k + 1) = some out := by
            rcases hcase with ⟨hb, rfl⟩ | ⟨hb, hn2, hd2, rfl⟩
            · exact scanStep_skip hm hcol (by
                rw [hunt (m - 1) (k + 1) (by omega)]; exact hb)
            · have hb1 : out (m - 1) (k + 1) =
                  fillVal (g (m - 1) (k + 2)) (g (m - 1) (k + 3))
                    (dist.getD (k + 1) 0) (dist.getD (k + 2) 0)
                    (dist.getD (k + 3) 0) fd := by
                rw [hunt (m - 1) (k + 1) (by omega)]
                unfold writeCol
                rw [if_pos ⟨rfl, by omega, hb⟩]
              by_cases hfill : fillVal (g (m - 1) (k + 2)) (g (m - 1) (k + 3))
                  (dist.getD (k + 1) 0) (dist.getD (k + 2) 0)
                  (dist.getD (k + 3) 0) fd = none
              · -- the bottom cell is still missing: the column fires again and
                -- rewrites every still-missing cell with the same (missing) value
                rw [scanStep_fire hm hcol (by rw [hb1]; exact hfill) hn2 hd2]
                congr 1
                funext r c
                unfold writeCol
                by_cases hcond : c = k + 1 ∧ r < m ∧ out r (k + 1) = none
                · obtain ⟨rfl, hrm, hmiss⟩ := hcond
                  rw [if_pos ⟨rfl, hrm, hmiss⟩]
                  have hg1 : out r (k + 1) = writeCol m dist fd g (k + 1) r (k + 1) :=
                    hunt r (k + 1) (by omega)
                  have hgr : g r (k + 1) = none := by
                    by_contra hgr
                    rw [hg1, writeCol_other (Or.inr (Or.inr hgr))] at hmiss
                    exact hgr hmiss
                  have hval : out r (k + 1) =
                      fillVal (g r (k + 2)) (g r (k + 3))
                        (dist.getD (k + 1) 0) (dist.getD (k + 2) 0)
                        (dist.getD (k + 3) 0) fd := by
                    rw [hg1]
                    unfold writeCol
                    rw [if_pos ⟨rfl, by omega, hgr⟩]
                  have h2 : out r (k + 2) = g r (k + 2) := by
                    rw [hunt r (k + 2) (by omega), writeCol_other (Or.inl (by omega))]
                  have h3 : out r (k + 3) = g r (k + 3) := by
                    rw [hunt r (k + 3) (by omega), writeCol_other (Or.inl (by omega))]
                  rw [h2, h3, ← hval, hmiss]
                · rw [if_neg hcond]
              · exact scanStep_skip hm hcol (by rw [hb1]; exact hfill)
          rw [scanLoop, hfix]
          exact ih h

/-! ### Facts about the boundary seed -/

lemma seedG_other {m n : Nat} {g : Grid} {r c : Nat} (h : c ≠ n - 2 ∨ m ≤ r) :
    seedG m n g r c = g r c := by
  unfold seedG
  have : ¬ (c = n - 2 ∧ r < m ∧ g r (n - 2) = none) := by
    rintro ⟨hc, hr, -⟩
    rcases h with h | h
    · exact h hc
    · omega
  simp [this]

lemma seedG_preserves {m n : Nat} {g : Grid} {r c : Nat} (h : g r c ≠ none) :
    seedG m n g r c = g r c := by
  unfold seedG
  have : ¬ (c = n - 2 ∧ r < m ∧ g r (n - 2) = none) := by
    rintro ⟨hc, -, hn⟩
    subst hc
    exact h hn
  simp [this]

/-! ### More facts about successful runs of the loop -/

lemma scanLoop_preserves {m n : Nat} {dist : List ℚ} {fd : ℚ} :
    ∀ {k : Nat} {g out : Grid}, scanLoop m n dist fd k g = some out →
      ∀ r c, g r c ≠ none → out r c = g r c := by
  intro k
  induction k with
  | zero => intro g out h r c _; cases h; rfl
  | succ k ih =>
      intro g out h r c hc
      rw [scanLoop] at h
      cases hstep : scanStep m n dist fd g (k + 1) with
      | none => rw [hstep] at h; cases h
      | some g1 =>
          rw [hstep] at h
          obtain ⟨-, -, hcase⟩ := scanStep_some hstep
          have hg1 : g1 r c = g r c := by
            rcases hcase with ⟨-, rfl⟩ | ⟨-, -, -, rfl⟩
            · rfl
            · exact writeCol_preserves hc
          rw [ih h r c (by rw [hg1]; exact hc), hg1]

lemma scanLoop_extent {m n : Nat} {dist : List ℚ} {fd : ℚ} :
    ∀ {k : Nat} {g out : Grid}, scanLoop m n dist fd k g = some out →
      ∀ r c, m ≤ r ∨ n ≤ c → out r c = g r c := by
  intro k
  induction k with
  | zero => intro g out h r c _; cases h; rfl
  | succ k ih =>
      intro g out h r c hc
      rw [scanLoop] at h
      cases hstep : scanStep m n dist fd g (k + 1) with
      | none => rw [hstep] at h; cases h
      | some g1 =>
          rw [hstep] at h
          obtain ⟨-, hcol, hcase⟩ := scanStep_some hstep
          have hg1 : g1 r c = g r c := by
            rcases hcase with ⟨-, rfl⟩ | ⟨-, -, -, rfl⟩
            · rfl
            · rcases hc with hc | hc
              · exact writeCol_other (Or.inr (Or.inl hc))
              · exact writeCol_other (Or.inl (by omega))
          rw [ih h r c hc, hg1]

/-! ### Unfolding and success analysis of `extrap_sec` -/

lemma extrap_sec_some_n2 {segdist : ℚ × ℚ → ℚ × ℚ → ℚ} {m n : Nat} {data : Grid}
    {lon lat : List ℚ} {fd : ℚ} {out : Grid}
    (h : extrap_sec segdist m n data lon lat fd = some out) : 2 ≤ n := by
  by_contra hc
  rw [extrap_sec, if_pos (by omega)] at h
  cases h

lemma extrap_sec_unfold {segdist : ℚ × ℚ → ℚ × ℚ → ℚ} {m n : Nat} {data : Grid}
    {lon lat : List ℚ} {fd : ℚ} (hn2 : 2 ≤ n) :
    extrap_sec segdist m n data lon lat fd =
      scanLoop m n (cumulative_distance segdist lon lat) fd (lon.length - 2)
        (seedG m n data) := by
  rw [extrap_sec, if_neg (by omega)]

/-- On a successful run with at least 3 station columns, the first scanned
column (`n - 2`) necessarily has a non-missing bottom cell — had it been
missing, the `col + 2` lookup would have been out of range and raised. -/
lemma extrap_sec_peel {segdist : ℚ × ℚ → ℚ × ℚ → ℚ} {m n : Nat} {data : Grid}
    {lon lat : List ℚ} {fd : ℚ} {out : Grid} (hn : n = lon.length) (h3 : 3 ≤ n)
    (h : extrap_sec segdist m n data lon lat fd = some out) :
    1 ≤ m ∧ seedG m n data (m - 1) (n - 2) ≠ none ∧
      scanLoop m n (cumulative_distance segdist lon lat) fd (n - 3)
        (seedG m n data) = some out := by
  rw [extrap_sec_unfold (by omega)] at h
  have hL : lon.length - 2 = (n - 3) + 1 := by omega
  rw [hL, scanLoop] at h
  cases hstep : scanStep m n (cumulative_distance segdist lon lat) fd
      (seedG m n data) ((n - 3) + 1) with
  | none => rw [hstep] at h; cases h
  | some g1 =>
      rw [hstep] at h
      obtain ⟨hm, -, hcase⟩ := scanStep_some hstep
      rcases hcase with ⟨hb, rfl⟩ | ⟨-, hn2, -, -⟩
      · have he : (n - 3) + 1 = n - 2 := by omega
        rw [he] at hb
        exact ⟨hm, hb, h⟩
      · omega

/-- On a successful run, the scan never rewrites the seeded column `n - 2`:
its cells keep the seeded values. -/
lemma extrap_sec_col_n2 {segdist : ℚ × ℚ → ℚ × ℚ → ℚ} {m n : Nat} {data : Grid}
    {lon lat : List ℚ} {fd : ℚ} {out : Grid} (hn : n = lon.length)
    (h : extrap_sec segdist m n data lon lat fd = some out) :
    ∀ r, out r (n - 2) = seedG m n data r (n - 2) := by
  intro r
  have hn2 : 2 ≤ n := extrap_sec_some_n2 h
  rcases Nat.lt_or_ge n 3 with h2 | h3
  · have hnn : n = 2 := by omega
    subst hnn
    rw [extrap_sec_unfold (by omega), show lon.length - 2 = 0 by omega,
      scanLoop] at h
    cases h
    rfl
  · obtain ⟨-, -, hrest⟩ := extrap_sec_peel hn h3 h
    exact scanLoop_untouched hrest r (n - 2) (by omega)

/-- On a successful run, the last column is never written at all. -/
lemma extrap_sec_lastcol {segdist : ℚ × ℚ → ℚ × ℚ → ℚ} {m n : Nat}
    {data : Grid} {lon lat : List ℚ} {fd : ℚ} {out : Grid}
    (hn : n = lon.length) (h : extrap_sec segdist m n data lon lat fd = some out) :
    ∀ r, out r (n - 1) = data r (n - 1) := by
  intro r
  have hn2 : 2 ≤ n := extrap_sec_some_n2 h
  rw [extrap_sec_unfold hn2] at h
  rw [scanLoop_untouched h r (n - 1) (by omega), seedG_other (Or.inl (by omega))]

/-! ### Concrete transects used to instantiate the theorems -/

/-- A concrete segment-distance model: every consecutive pair of stations is
1000 m apart, so the cumulative distances are 0, 1, 2, ... km. -/
def segC : ℚ × ℚ → ℚ × ℚ → ℚ := fun _ _ => 1000

def lonA : List ℚ := [0, 1, 2]

def latA : List ℚ := [0, 0, 0]

/-- A 2 × 3 grid: bottom row fully measured, top row missing at the middle
station (a shadow cell). -/
def gridA : Grid := fun r c =>
  if r = 0 then
    if c = 0 then some 4 else if c = 1 then none else if c = 2 then some 6 else none
  else if r = 1 then
    if c = 0 then some 1 else if c = 1 then some 2 else if c = 2 then some 3 else none
  else none

def lonB : List ℚ := [0, 1, 2, 3]

def latB : List ℚ := [0, 0, 0, 0]

/-- A 2 × 4 grid: bottom row fully measured, top row fully missing — the scan
never fires (every bottom cell is present) and the seed copies a missing
value, so every top-row cell stays missing in the output. -/
def gridB : Grid := fun r c =>
  if r = 1 ∧ c < 4 then some ((c : ℚ) + 1) else none

def lon2 : List ℚ := [0, 1]

def lat2 : List ℚ := [0, 0]

/-- A 1 × 2 grid with a missing first cell: a two-column transect. -/
def grid2 : Grid := fun r c => if r = 0 ∧ c = 1 then some 7 else none

lemma extrap_gridA_isSome :
    (extrap_sec segC 2 3 gridA lonA latA 1).isSome = true := by decide

lemma extrap_gridB_isSome :
    (extrap_sec segC 2 4 gridB lonB latB 1).isSome = true := by decide

/-! ### C4: non-missing cells and the grid extent are preserved -/

/-- C4: whenever `extrap_sec` returns a grid, every cell that was non-missing
in the input holds the numerically identical value in the output (only missing
cells are ever written), and no cell outside the `m × n` extent is touched
(the output has the shape of the input). -/
theorem extrap_sec_preserves_nonmissing (segdist : ℚ × ℚ → ℚ × ℚ → ℚ)
    (m n : Nat) (data : Grid) (lon lat : List ℚ) (fd : ℚ) (out : Grid)
    (h : extrap_sec segdist m n data lon lat fd = some out) :
    (∀ r c, data r c ≠ none → out r c = data r c) ∧
      (∀ r c, m ≤ r ∨ n ≤ c → out r c = data r c) := by
  have hn2 : 2 ≤ n := extrap_sec_some_n2 h
  rw [extrap_sec_unfold hn2] at h
  constructor
  · intro r c hc
    have hs : seedG m n data r c = data r c := seedG_preserves hc
    rw [scanLoop_preserves h r c (by rw [hs]; exact hc), hs]
  · intro r c hc
    have hs : seedG m n data r c = data r c := by
      rcases hc with hc | hc
      · exact seedG_other (Or.inr hc)
      · exact seedG_other (Or.inl (by omega))
    rw [scanLoop_extent h r c hc, hs]

theorem extrap_sec_preserves_nonmissing_witness :
    (∀ r c, gridA r c ≠ none →
        (extrap_sec segC 2 3 gridA lonA latA 1).get extrap_gridA_isSome r c =
          gridA r c) ∧
      (∀ r c, 2 ≤ r ∨ 3 ≤ c →
        (extrap_sec segC 2 3 gridA lonA latA 1).get extrap_gridA_isSome r c =
          gridA r c) :=
  extrap_sec_preserves_nonmissing segC 2 3 gridA lonA latA 1
    ((extrap_sec segC 2 3 gridA lonA latA 1).get extrap_gridA_isSome)
    (Option.some_get extrap_gridA_isSome).symm

/-! ### C2: the caller's array is mutated in place (claim corrected) -/

/-- C2 counterexample: after the call, the array object the caller passed in
no longer holds its original values — the shadow cell (0, 1), missing in
`gridA`, now holds the value 6 copied from the last column. -/
theorem extrap_sec_mutation_counterexample :
    (extrap_sec_callerView segC 2 3 gridA lonA latA 1).map (fun g => g 0 1) =
        some (some 6) ∧
      gridA 0 1 = none := by
  constructor
  · decide
  · rfl

/-- C2 amended: `extrap_sec` operates in place on the caller's array and
returns that same array: after a successful call the caller's array holds
exactly the returned grid, and any missing cell of column `n - 2` whose
last-column neighbour was measured has genuinely changed in the caller's
array. -/
theorem extrap_sec_mutates (segdist : ℚ × ℚ → ℚ × ℚ → ℚ) (m n : Nat)
    (data : Grid) (lon lat : List ℚ) (fd : ℚ) (out : Grid) (r : Nat)
    (hn : n = lon.length) (hr : r < m) (hmiss : data r (n - 2) = none)
    (hlast : data r (n - 1) ≠ none)
    (h : extrap_sec segdist m n data lon lat fd = some out) :
    extrap_sec_callerView segdist m n data lon lat fd = some out ∧
      out r (n - 2) ≠ none ∧ out r (n - 2) ≠ data r (n - 2) := by
  have hval : out r (n - 2) = data r (n - 1) := by
    rw [extrap_sec_col_n2 hn h r, seedG]
    rw [if_pos ⟨rfl, hr, hmiss⟩]
  refine ⟨h, ?_, ?_⟩
  · rw [hval]; exact hlast
  · rw [hval, hmiss]; exact hlast

theorem extrap_sec_mutates_witness :
    extrap_sec_callerView segC 2 3 gridA lonA latA 1 =
        some ((extrap_sec segC 2 3 gridA lonA latA 1).get extrap_gridA_isSome) ∧
      (extrap_sec segC 2 3 gridA lonA latA 1).get extrap_gridA_isSome 0 1 ≠ none ∧
      (extrap_sec segC 2 3 gridA lonA latA 1).get extrap_gridA_isSome 0 1 ≠
        gridA 0 1 :=
  extrap_sec_mutates segC 2 3 gridA lonA latA 1
    ((extrap_sec segC 2 3 gridA lonA latA 1).get extrap_gridA_isSome) 0
    rfl (by omega) rfl (by decide)
    (Option.some_get extrap_gridA_isSome).symm

/-! ### C3: short transects do not raise `InvalidInputError` (claim corrected) -/

/-- C3 counterexample: on a 2-column transect the source does not fail at
all — it returns a result (the seeded grid), so the required
`InvalidInputError` is never raised. -/
theorem extrap_sec_short_counterexample :
    (extrap_sec segC 1 2 grid2 lon2 lat2 1).isSome = true := by decide

/-- C3 amended: the source has no validation and no `InvalidInputError`.
With exactly 2 station columns it returns a grid (the second-to-last column
seeded from the last; the gradient loop body never runs); with 0 or 1 columns
it fails, but with an out-of-range index error. -/
theorem extrap_sec_short_transect (segdist : ℚ × ℚ → ℚ × ℚ → ℚ) (m n : Nat)
    (data : Grid) (lon lat : List ℚ) (fd : ℚ) (hn : n = lon.length) :
    (n = 2 → extrap_sec segdist m n data lon lat fd = some (seedG m n data)) ∧
      (n ≤ 1 → extrap_sec segdist m n data lon lat fd = none) := by
  constructor
  · intro h2
    rw [extrap_sec, if_neg (by omega), show lon.length - 2 = 0 by omega, scanLoop]
  · intro h1
    rw [extrap_sec, if_pos (by omega)]

theorem extrap_sec_short_transect_witness :
    (2 = 2 → extrap_sec segC 1 2 grid2 lon2 lat2 1 = some (seedG 1 2 grid2)) ∧
      (2 ≤ 1 → extrap_sec segC 1 2 grid2 lon2 lat2 1 = none) :=
  extrap_sec_short_transect segC 1 2 grid2 lon2 lat2 1 rfl

/-! ### C8: idempotence on its own output -/

/-- C8: applying `extrap_sec` to the grid a successful call returned (same
coordinates, same decay factor) succeeds and returns that grid unchanged. -/
theorem extrap_sec_idempotent (segdist : ℚ × ℚ → ℚ × ℚ → ℚ) (m n : Nat)
    (data : Grid) (lon lat : List ℚ) (fd : ℚ) (out : Grid)
    (hn : n = lon.length)
    (h : extrap_sec segdist m n data lon lat fd = some out) :
    extrap_sec segdist m n out lon lat fd = some out := by
  have hn2 : 2 ≤ n := extrap_sec_some_n2 h
  have hseedout : seedG m n out = out := by
    funext r c
    unfold seedG
    by_cases hcond : c = n - 2 ∧ r < m ∧ out r (n - 2) = none
    · obtain ⟨rfl, hr, hmiss⟩ := hcond
      rw [if_pos ⟨rfl, hr, hmiss⟩]
      have h1 : out r (n - 2) = seedG m n data r (n - 2) :=
        extrap_sec_col_n2 hn h r
      have hlast : out r (n - 1) = data r (n - 1) := extrap_sec_lastcol hn h r
      have hdn : data r (n - 1) = none := by
        rw [h1] at hmiss
        unfold seedG at hmiss
        split_ifs at hmiss with hd
        · exact hmiss
        · exact absurd ⟨rfl, hr, hmiss⟩ hd
      rw [hlast, hdn, hmiss]
    · rw [if_neg hcond]
  rw [extrap_sec_unfold hn2] at h ⊢
  rw [hseedout]
  exact scanLoop_fixpoint h

theorem extrap_sec_idempotent_witness :
    extrap_sec segC 2 3
        ((extrap_sec segC 2 3 gridA lonA latA 1).get extrap_gridA_isSome)
        lonA latA 1 =
      some ((extrap_sec segC 2 3 gridA lonA latA 1).get extrap_gridA_isSome) :=
  extrap_sec_idempotent segC 2 3 gridA lonA latA 1
    ((extrap_sec segC 2 3 gridA lonA latA 1).get extrap_gridA_isSome)
    rfl (Option.some_get extrap_gridA_isSome).symm

/-! ### C10: which columns can be written, and which cells can stay missing -/

/-- C10: on a successful run with at least 3 station columns, `extrap_sec`
never writes the first column or the last column; a column strictly between
column 0 and column `n - 2` is written only if its bottom-most cell was
missing; column `n - 2` only ever receives its unconditional seed; and the
returned grid can still contain missing cells — on the concrete transect
`gridB` every top-row cell (first column, an interior column with a measured
bottom cell, the seeded column, and the last column) is still missing in the
output. -/
theorem extrap_sec_write_discipline (segdist : ℚ × ℚ → ℚ × ℚ → ℚ) (m n : Nat)
    (data : Grid) (lon lat : List ℚ) (fd : ℚ) (out : Grid)
    (hn : n = lon.length) (h3 : 3 ≤ n)
    (h : extrap_sec segdist m n data lon lat fd = some out) :
    (∀ r, out r 0 = data r 0) ∧
      (∀ r, out r (n - 1) = data r (n - 1)) ∧
      (∀ c, 1 ≤ c → c < n - 2 → data (m - 1) c ≠ none →
        ∀ r, out r c = data r c) ∧
      (∀ r, out r (n - 2) = seedG m n data r (n - 2)) ∧
      (extrap_sec segC 2 4 gridB lonB latB 1).map
          (fun g => (g 0 0, g 0 1, g 0 2, g 0 3)) =
        some (none, none, none, none) := by
  have hn2 : 2 ≤ n := extrap_sec_some_n2 h
  obtain ⟨hm, hb, hrest⟩ := extrap_sec_peel hn h3 h
  refine ⟨?_, extrap_sec_lastcol hn h, ?_, extrap_sec_col_n2 hn h, by decide⟩
  · intro r
    have hu : out r 0 = seedG m n data r 0 := by
      rw [extrap_sec_unfold hn2] at h
      exact scanLoop_untouched h r 0 (Or.inl rfl)
    rw [hu, seedG_other (Or.inl (by omega))]
  · intro c hc1 hc2 hcbot r
    have hseedc : ∀ r, seedG m n data r c = data r c := fun r =>
      seedG_other (Or.inl (by omega))
    have hout : out = specScan m (cumulative_distance segdist lon lat) fd (n - 3)
        (seedG m n data) := scanLoop_sound hrest
    rw [hout, specScan_skipcol hc1 (by omega) (by rw [hseedc]; exact hcbot) r,
      hseedc]

theorem extrap_sec_write_discipline_witness :
    (∀ r, (extrap_sec segC 2 4 gridB lonB latB 1).get extrap_gridB_isSome r 0 =
        gridB r 0) ∧
      (∀ r, (extrap_sec segC 2 4 gridB lonB latB 1).get extrap_gridB_isSome r 3 =
        gridB r 3) ∧
      (∀ c, 1 ≤ c → c < 2 → gridB 1 c ≠ none →
        ∀ r, (extrap_sec segC 2 4 gridB lonB latB 1).get extrap_gridB_isSome r c =
          gridB r c) ∧
      (∀ r, (extrap_sec segC 2 4 gridB lonB latB 1).get extrap_gridB_isSome r 2 =
        seedG 2 4 gridB r 2) ∧
      (extrap_sec segC 2 4 gridB lonB latB 1).map
          (fun g => (g 0 0, g 0 1, g 0 2, g 0 3)) =
        some (none, none, none, none) :=
  extrap_sec_write_discipline segC 2 4 gridB lonB latB 1
    ((extrap_sec segC 2 4 gridB lonB latB 1).get extrap_gridB_isSome)
    rfl (by omega) (Option.some_get extrap_gridB_isSome).symm

/-! ### C1: the code computes exactly the spec's algorithm -/

/-- C1: with at least 3 station columns (and the scan's starting column not in
the pathological both-ends-missing configuration that the spec leaves
undefined), `extrap_sec` returns exactly the grid described by the
specification's algorithm: seed the second-to-last column from the last, then
scan from the second-to-last column down to column 1, filling the missing
rows of every column whose bottom-most row is missing.  Moreover with `fd = 0`
every cell that ends up filled equals exactly the value propagated from the
column to its right, and with `fd = 1` a filled value differs from its right
neighbour by the full local gradient term. -/
theorem extrap_sec_matches_spec (segdist : ℚ × ℚ → ℚ × ℚ → ℚ) (m n : Nat)
    (data : Grid) (lon lat : List ℚ) (fd : ℚ)
    (hn : n = lon.length) (hlat : lon.length = lat.length) (h3 : 3 ≤ n)
    (hm : 1 ≤ m)
    (hnc : data (m - 1) (n - 2) ≠ none ∨ data (m - 1) (n - 1) ≠ none) :
    extrap_sec segdist m n data lon lat fd =
        some (extrapolate_section_spec m n data
          (cumulative_distance segdist lon lat) fd) ∧
      (fd = 0 → ∀ r c, r < m → 1 ≤ c → c ≤ n - 2 →
        seedG m n data r c = none →
        extrapolate_section_spec m n data
            (cumulative_distance segdist lon lat) fd r c ≠ none →
        extrapolate_section_spec m n data
            (cumulative_distance segdist lon lat) fd r c =
          extrapolate_section_spec m n data
            (cumulative_distance segdist lon lat) fd r (c + 1)) ∧
      (fd = 1 → ∀ r c v, r < m → 1 ≤ c → c ≤ n - 2 →
        seedG m n data r c = none →
        extrapolate_section_spec m n data
            (cumulative_distance segdist lon lat) fd r c = some v →
        ∃ x y,
          extrapolate_section_spec m n data
              (cumulative_distance segdist lon lat) fd r (c + 1) = some x ∧
          extrapolate_section_spec m n data
              (cumulative_distance segdist lon lat) fd r (c + 2) = some y ∧
          v = x - ((y - x) /
                ((cumulative_distance segdist lon lat).getD (c + 2) 0 -
                  (cumulative_distance segdist lon lat).getD (c + 1) 0)) *
              ((cumulative_distance segdist lon lat).getD (c + 1) 0 -
                (cumulative_distance segdist lon lat).getD c 0)) := by
  have hseedb : seedG m n data (m - 1) (n - 2) ≠ none := by
    rcases hnc with hx | hx
    · rw [seedG_preserves hx]
      exact hx
    · unfold seedG
      by_cases hd : data (m - 1) (n - 2) = none
      · rw [if_pos ⟨rfl, by omega, hd⟩]
        exact hx
      · rw [if_neg (by rintro ⟨-, -, hz⟩; exact hd hz)]
        exact hd
  have hdistlen : n ≤ (cumulative_distance segdist lon lat).length := by
    rw [cumulative_distance_length segdist lon lat hlat (by omega)]
    omega
  have hcol : (n - 3) + 1 = n - 2 := by omega
  have hspec : extrapolate_section_spec m n data
      (cumulative_distance segdist lon lat) fd =
        specScan m (cumulative_distance segdist lon lat) fd (n - 3)
          (seedG m n data) := by
    unfold extrapolate_section_spec
    rw [← seedG_eq_specSeedColumn, ← hcol, specScan,
      show specProcessColumn m (cumulative_distance segdist lon lat) fd
          (seedG m n data) ((n - 3) + 1) = seedG m n data by
        rw [specProcessColumn_eq, if_neg (by rw [hcol]; exact hseedb)]]
  refine ⟨?_, ?_, ?_⟩
  · rw [extrap_sec_unfold (by omega), show lon.length - 2 = (n - 3) + 1 by omega,
      scanLoop, scanStep_skip hm (by omega) (by rw [hcol]; exact hseedb)]
    show scanLoop m n (cumulative_distance segdist lon lat) fd (n - 3)
        (seedG m n data) =
      some (extrapolate_section_spec m n data
        (cumulative_distance segdist lon lat) fd)
    rw [scanLoop_complete hm hdistlen (n - 3) (seedG m n data) (by omega), hspec]
  · intro hfd r c hr hc1 hc2 hseednone hne
    rw [show extrapolate_section_spec m n data
        (cumulative_distance segdist lon lat) fd =
          specScan m (cumulative_distance segdist lon lat) fd (n - 2)
            (seedG m n data) from by
      unfold extrapolate_section_spec; rw [← seedG_eq_specSeedColumn]] at hne ⊢
    rcases specScan_cell (k := n - 2) hc1 hc2 hr with hsame | ⟨-, hfill⟩
    · rw [hsame, hseednone] at hne
      exact absurd rfl hne
    · subst hfd
      rw [hfill] at hne ⊢
      cases hA : specScan m (cumulative_distance segdist lon lat) 0 (n - 2)
          (seedG m n data) r (c + 1) with
      | none =>
          cases hB : specScan m (cumulative_distance segdist lon lat) 0 (n - 2)
              (seedG m n data) r (c + 2) <;> rfl
      | some x =>
          cases hB : specScan m (cumulative_distance segdist lon lat) 0 (n - 2)
              (seedG m n data) r (c + 2) with
          | none =>
              rw [hA, hB] at hne
              exact absurd rfl hne
          | some y =>
              simp only [fillVal, Option.some.injEq]
              ring
  · intro hfd r c v hr hc1 hc2 hseednone hv
    rw [show extrapolate_section_spec m n data
        (cumulative_distance segdist lon lat) fd =
          specScan m (cumulative_distance segdist lon lat) fd (n - 2)
            (seedG m n data) from by
      unfold extrapolate_section_spec; rw [← seedG_eq_specSeedColumn]] at hv ⊢
    rcases specScan_cell (k := n - 2) hc1 hc2 hr with hsame | ⟨-, hfill⟩
    · rw [hsame, hseednone] at hv
      cases hv
    · subst hfd
      rw [hfill] at hv
      cases hA : specScan m (cumulative_distance segdist lon lat) 1 (n - 2)
          (seedG m n data) r (c + 1) with
      | none =>
          cases hB : specScan m (cumulative_distance segdist lon lat) 1 (n - 2)
              (seedG m n data) r (c + 2) <;> rw [hA, hB] at hv <;>
            simp [fillVal] at hv
      | some x =>
          cases hB : specScan m (cumulative_distance segdist lon lat) 1 (n - 2)
              (seedG m n data) r (c + 2) with
          | none =>
              rw [hA, hB] at hv
              simp [fillVal] at hv
          | some y =>
              rw [hA, hB] at hv
              simp only [fillVal, Option.some.injEq] at hv
              exact ⟨x, y, rfl, rfl, by rw [← hv]; ring⟩

theorem extrap_sec_matches_spec_witness :
    extrap_sec segC 2 3 gridA lonA latA 1 =
      some (extrapolate_section_spec 2 3 gridA
        (cumulative_distance segC lonA latA) 1) :=
  (extrap_sec_matches_spec segC 2 3 gridA lonA latA 1 rfl rfl (by omega)
    (by omega) (Or.inl (by decide))).1

/-! ### TopoMaskBuilder: `gen_topomask` (ctd.py lines 250-258)

Source:
```
h, lon, lat = map(np.asanyarray, (h, lon, lat))
x = np.append(0, np.cumsum(gsw.distance(lon, lat)[0] / 1e3))
h = -gsw.z_from_p(h, lat.mean())
Ih = interp1d(x, h, kind=kind, bounds_error=False, fill_value=h[-1])
xm = np.arange(0, x.max() + dx, dx)
hm = Ih(xm)
return xm, hm
```
`gsw.z_from_p` is external and is modelled as a parameter `zfp`;
`scipy.interpolate.interp1d` is external and is modelled for the default
`kind='linear'` below. -/

/-- Modelled from the spec: the x-coordinate of the last knot (starting from
`x0` and walking the remaining knots). -/
def knotsLastX (x0 : ℚ) : List (ℚ × ℚ) → ℚ
  | [] => x0
  | (x1, _) :: r => knotsLastX x1 r

/-- Modelled from the spec: piecewise-linear evaluation over the knots, for a
query already known to be ≥ the first knot and ≤ the last knot. -/
def interpEval (x0 y0 : ℚ) : List (ℚ × ℚ) → ℚ → ℚ
  | [], _ => y0
  | (x1, y1) :: rest, q =>
      if q ≤ x1 then y0 + (y1 - y0) * ((q - x0) / (x1 - x0))
      else interpEval x1 y1 rest q

/-- Modelled from the spec: `scipy.interpolate.interp1d` with `kind='linear'`,
`bounds_error=False` and a scalar `fill_value`: a query below the first knot
or above the last knot returns `fill_value` (on both sides the same scalar);
in-domain queries are piecewise-linear. -/
def interpLinear (knots : List (ℚ × ℚ)) (fill : ℚ) (q : ℚ) : ℚ :=
  match knots with
  | [] => fill
  | (x0, y0) :: rest =>
      if q < x0 then fill
      else if knotsLastX x0 rest < q then fill
      else interpEval x0 y0 rest q

/-- The number of elements of `np.arange(start, stop, step)` for a positive
step: `ceil((stop - start) / step)` (clamped at 0). -/
def arangeLen (start stop step : ℚ) : Nat := (Int.ceil ((stop - start) / step)).toNat

/-- `np.arange(start, stop, step)`. -/
def arange (start stop step : ℚ) : List ℚ :=
  (List.range (arangeLen start stop step)).map
    (fun i : Nat => start + (i : ℚ) * step)

/-- `x.max()` of a (nonempty) numpy vector. -/
def npMax : List ℚ → ℚ
  | [] => 0
  | a :: t => t.foldl max a

/-- `lat.mean()`. -/
def listMean (l : List ℚ) : ℚ := l.sum / (l.length : ℚ)

/-- The interpolant `Ih` built by `gen_topomask`:
`interp1d(x, h, bounds_error=False, fill_value=h[-1])` where `x` is the
cumulative distance vector and `h` the per-station depths obtained from the
pressure-to-depth conversion `-zfp(·, lat.mean())`.  The scalar fill value is
the depth of the last station. -/
def gen_topomask_Ih (segdist : ℚ × ℚ → ℚ × ℚ → ℚ) (zfp : ℚ → ℚ → ℚ)
    (h lon lat : List ℚ) : ℚ → ℚ :=
  interpLinear
    ((cumulative_distance segdist lon lat).zip
      (h.map (fun p => -(zfp p (listMean lat)))))
    ((h.map (fun p => -(zfp p (listMean lat)))).getLastD 0)

/-- `gen_topomask(h, lon, lat, dx, kind='linear')`: the query grid
`xm = np.arange(0, x.max() + dx, dx)` and the interpolated sea-floor profile
`hm = Ih(xm)`. -/
def gen_topomask (segdist : ℚ × ℚ → ℚ × ℚ → ℚ) (zfp : ℚ → ℚ → ℚ)
    (h lon lat : List ℚ) (dx : ℚ) : List ℚ × List ℚ :=
  let xm := arange 0 (npMax (cumulative_distance segdist lon lat) + dx) dx
  (xm, xm.map (gen_topomask_Ih segdist zfp h lon lat))

/-! ### C5: out-of-domain queries clamp to the LAST station's depth on both
sides (claim corrected: the left side does not return the first station's
depth) -/

lemma knotsLastX_zip :
    ∀ (xs ys : List ℚ) (x0 : ℚ), xs.length = ys.length →
      knotsLastX x0 (xs.zip ys) = xs.getLastD x0 := by
  intro xs
  induction xs with
  | nil => intro ys x0 _; rfl
  | cons a t ih =>
      intro ys x0 hlen
      cases ys with
      | nil => simp at hlen
      | cons b u =>
          simp only [List.zip_cons_cons, knotsLastX, List.getLastD_cons]
          exact ih u a (by simpa using hlen)

/-- C5 counterexample: on a 2-station transect with depths 10 m and 20 m, the
interpolant built by `gen_topomask` answers a query 1 km before the first
station with 20 — the depth of the LAST station — although the first
station's depth (the value at distance 0) is 10. -/
theorem gen_topomask_left_clamp_counterexample :
    gen_topomask_Ih segC (fun p _ => -p) [10, 20] lon2 lat2 (-1) = 20 ∧
      gen_topomask_Ih segC (fun p _ => -p) [10, 20] lon2 lat2 0 = 10 ∧
      (20 : ℚ) ≠ 10 := by
  refine ⟨?_, ?_, by norm_num⟩ <;>
    norm_num [gen_topomask_Ih, cumulative_distance, adjPairs, cumsumFrom,
      interpLinear, knotsLastX, interpEval, listMean, segC, lon2, lat2]

/-- C5 amended: every out-of-domain query — on either side — returns the
scalar fill value `h[-1]`, the depth of the LAST station: beyond the last
station this is constant extrapolation at the last station's depth (never
linear extrapolation), and before the first station it likewise returns the
last station's depth, not the first station's. -/
theorem gen_topomask_clamps_to_last (segdist : ℚ × ℚ → ℚ × ℚ → ℚ)
    (zfp : ℚ → ℚ → ℚ) (h lon lat : List ℚ) (q : ℚ) (hh : h ≠ [])
    (hlen : lon.length = h.length) (hlat : lon.length = lat.length)
    (hq : q < 0 ∨ (cumulative_distance segdist lon lat).getLastD 0 < q) :
    gen_topomask_Ih segdist zfp h lon lat q =
      (h.map (fun p => -(zfp p (listMean lat)))).getLastD 0 := by
  cases h with
  | nil => exact absurd rfl hh
  | cons a t =>
      simp only [gen_topomask_Ih, cumulative_distance, List.map_cons,
        List.zip_cons_cons, interpLinear]
      by_cases hq0 : q < 0
      · rw [if_pos hq0]
      · rw [if_neg hq0]
        rcases hq with hq | hq
        · exact absurd hq hq0
        · have hlx : knotsLastX 0
              ((cumsumFrom 0 ((adjPairs (lon.zip lat)).map
                  (fun s => segdist s.1 s.2 / 1000))).zip
                (t.map (fun p => -(zfp p (listMean lat))))) =
              (cumsumFrom 0 ((adjPairs (lon.zip lat)).map
                  (fun s => segdist s.1 s.2 / 1000))).getLastD 0 := by
            apply knotsLastX_zip
            simp only [cumsumFrom_length, List.length_map, adjPairs_length,
              List.length_zip]
            simp only [List.length_cons] at hlen
            omega
          have hq2 : (cumsumFrom 0 ((adjPairs (lon.zip lat)).map
              (fun s => segdist s.1 s.2 / 1000))).getLastD 0 < q := by
            rw [cumulative_distance, List.getLastD_cons] at hq
            exact hq
          rw [hlx, if_pos hq2]

theorem gen_topomask_clamps_to_last_witness :
    gen_topomask_Ih segC (fun p _ => -p) [10, 20] lon2 lat2 (-1) =
      (([10, 20] : List ℚ).map
        (fun p => -((fun p _ => -p : ℚ → ℚ → ℚ) p (listMean lat2)))).getLastD 0 :=
  gen_topomask_clamps_to_last segC (fun p _ => -p) [10, 20] lon2 lat2 (-1)
    (by decide) rfl rfl (Or.inl (by norm_num))

/-! ### C7: the query grid `xm` -/

lemma le_foldl_max : ∀ (l : List ℚ) (a : ℚ), a ≤ l.foldl max a := by
  intro l
  induction l with
  | nil => intro a; exact le_refl a
  | cons b t ih =>
      intro a
      exact le_trans (le_max_left a b) (ih (max a b))

lemma npMax_cumulative_nonneg (segdist : ℚ × ℚ → ℚ × ℚ → ℚ) (lon lat : List ℚ) :
    0 ≤ npMax (cumulative_distance segdist lon lat) :=
  le_foldl_max _ 0

lemma arange_length (start stop step : ℚ) :
    (arange start stop step).length = arangeLen start stop step := by
  simp [arange]

lemma arange_getD (start stop step : ℚ) (i : Nat) (d : ℚ)
    (hi : i < arangeLen start stop step) :
    (arange start stop step).getD i d = start + (i : ℚ) * step := by
  rw [List.getD_eq_getElem?_getD, arange, List.getElem?_map,
    List.getElem?_range hi]
  rfl

lemma arangeLen_eq (M dx : ℚ) (hdx : 0 < dx) (hM : 0 ≤ M) :
    arangeLen 0 (M + dx) dx = (Int.ceil (M / dx)).toNat + 1 := by
  unfold arangeLen
  rw [show (M + dx - 0) / dx = M / dx + 1 by
    rw [sub_zero, add_div, div_self (ne_of_gt hdx)]]
  rw [Int.ceil_add_one]
  have h0 : 0 ≤ Int.ceil (M / dx) := Int.ceil_nonneg (div_nonneg hM hdx.le)
  omega

lemma arange_getLastD (M dx : ℚ) (hdx : 0 < dx) (hM : 0 ≤ M) :
    (arange 0 (M + dx) dx).getLastD 1 =
      ((Int.ceil (M / dx)).toNat : ℚ) * dx := by
  rw [arange, arangeLen_eq M dx hdx hM, List.range_succ, List.map_append]
  simp only [List.map_cons, List.map_nil]
  rw [List.getLastD_concat, zero_add]

/-- C7: for every positive resolution `dx`, the horizontal grid `xm` returned
by `gen_topomask` is nonempty, starts at exactly 0, has uniform spacing `dx`
between consecutive elements, and its last element is the smallest natural
multiple of `dx` that is at least the maximum cumulative distance. -/
theorem gen_topomask_xm_grid (segdist : ℚ × ℚ → ℚ × ℚ → ℚ) (zfp : ℚ → ℚ → ℚ)
    (h lon lat : List ℚ) (dx : ℚ) (hdx : 0 < dx) :
    (gen_topomask segdist zfp h lon lat dx).1 ≠ [] ∧
      (gen_topomask segdist zfp h lon lat dx).1.getD 0 1 = 0 ∧
      (∀ i, i + 1 < (gen_topomask segdist zfp h lon lat dx).1.length →
        (gen_topomask segdist zfp h lon lat dx).1.getD (i + 1) 0 -
          (gen_topomask segdist zfp h lon lat dx).1.getD i 0 = dx) ∧
      (∃ k : Nat,
        (gen_topomask segdist zfp h lon lat dx).1.getLastD 1 = (k : ℚ) * dx ∧
        npMax (cumulative_distance segdist lon lat) ≤ (k : ℚ) * dx ∧
        ∀ j : Nat, npMax (cumulative_distance segdist lon lat) ≤ (j : ℚ) * dx →
          (k : ℚ) * dx ≤ (j : ℚ) * dx) := by
  have hM : 0 ≤ npMax (cumulative_distance segdist lon lat) :=
    npMax_cumulative_nonneg segdist lon lat
  set M := npMax (cumulative_distance segdist lon lat) with hMdef
  have hxm : (gen_topomask segdist zfp h lon lat dx).1 = arange 0 (M + dx) dx := rfl
  have hlen : arangeLen 0 (M + dx) dx = (Int.ceil (M / dx)).toNat + 1 :=
    arangeLen_eq M dx hdx hM
  have hceil0 : 0 ≤ Int.ceil (M / dx) := Int.ceil_nonneg (div_nonneg hM hdx.le)
  refine ⟨?_, ?_, ?_, ?_⟩
  · rw [hxm]
    intro hnil
    have := arange_length 0 (M + dx) dx
    rw [hnil] at this
    simp at this
    omega
  · rw [hxm, arange_getD 0 (M + dx) dx 0 1 (by omega)]
    norm_num
  · intro i hi
    rw [hxm, arange_length] at hi
    rw [hxm, arange_getD 0 (M + dx) dx (i + 1) 0 (by omega),
      arange_getD 0 (M + dx) dx i 0 (by omega)]
    push_cast
    ring
  · refine ⟨(Int.ceil (M / dx)).toNat, ?_, ?_, ?_⟩
    · rw [hxm]
      exact arange_getLastD M dx hdx hM
    · have h1 : M / dx ≤ ((Int.ceil (M / dx)).toNat : ℚ) := by
        have hle := Int.le_ceil (M / dx)
        have h2 : (Int.ceil (M / dx) : ℤ) = ((Int.ceil (M / dx)).toNat : ℤ) :=
          (Int.toNat_of_nonneg hceil0).symm
        rw [h2] at hle
        exact_mod_cast hle
      calc M = M / dx * dx := (div_mul_cancel₀ M (ne_of_gt hdx)).symm
        _ ≤ ((Int.ceil (M / dx)).toNat : ℚ) * dx :=
            mul_le_mul_of_nonneg_right h1 hdx.le
    · intro j hj
      have hdiv : M / dx ≤ (j : ℚ) := (div_le_iff₀ hdx).mpr hj
      have hc : Int.ceil (M / dx) ≤ (j : ℤ) :=
        Int.ceil_le.mpr (by push_cast; exact hdiv)
      have hnat : (Int.ceil (M / dx)).toNat ≤ j := by omega
      exact mul_le_mul_of_nonneg_right (by exact_mod_cast hnat) hdx.le

theorem gen_topomask_xm_grid_witness :
    (gen_topomask segC (fun p _ => -p) [10, 20] lon2 lat2 1).1 ≠ [] ∧
      (gen_topomask segC (fun p _ => -p) [10, 20] lon2 lat2 1).1.getD 0 1 = 0 ∧
      (∀ i, i + 1 < (gen_topomask segC (fun p _ => -p) [10, 20] lon2 lat2 1).1.length →
        (gen_topomask segC (fun p _ => -p) [10, 20] lon2 lat2 1).1.getD (i + 1) 0 -
          (gen_topomask segC (fun p _ => -p) [10, 20] lon2 lat2 1).1.getD i 0 = 1) ∧
      (∃ k : Nat,
        (gen_topomask segC (fun p _ => -p) [10, 20] lon2 lat2 1).1.getLastD 1 =
          (k : ℚ) * 1 ∧
        npMax (cumulative_distance segC lon2 lat2) ≤ (k : ℚ) * 1 ∧
        ∀ j : Nat, npMax (cumulative_distance segC lon2 lat2) ≤ (j : ℚ) * 1 →
          (k : ℚ) * 1 ≤ (j : ℚ) * 1) :=
  gen_topomask_xm_grid segC (fun p _ => -p) [10, 20] lon2 lat2 1 (by norm_num)

end Oceans
